import Mathlib

/-!
# Verification of the rename-plan validation and execution engine

Shallow embedding of the core of `src/index.ts` (the `rename-llm` CLI):
the validation loop (lines 157-186) and the execution loop (lines 195-209),
together with the data model they operate on.

Modelling conventions:
* A directory snapshot (`onlyFiles` in the source) is a `List String`.
* The disk is modelled as its characteristic function `Disk := String → Bool`;
  `fs.pathExists (path.join targetDir n)` becomes an abstract probe
  `e : String → Bool` applied to the bare file name, as all paths the core
  builds are the target directory joined with a file name.
* The validation loop pushes error strings into `validationErrors` and prints
  warnings with `console.warn` as it goes; we model the merged emission
  stream as a list of `ValidationIssue` values in program order, where each
  constructor corresponds to exactly one `push`/`warn` site and `message`
  reproduces the exact string the site emits.  `errorsOf` recovers the
  `validationErrors` list (warnings never enter it).
* `fs.rename` succeeds exactly when the source name exists, removing the old
  name and (over)writing the new one; on a missing source it rejects with an
  ENOENT error, whose description the execution loop logs.  The executor is
  parameterised by the rename primitive, instantiated with `fsRename`.
-/

/-- `interface RenameOperation` (src/index.ts lines 15-19). -/
structure RenameOperation where
  original : String
  new : String
  reason : Option String := none
deriving DecidableEq, Repr

/-- Severity of a validation issue: `validationErrors.push` sites are errors,
`console.warn` sites are warnings. -/
inductive Severity where
  | error
  | warning
deriving DecidableEq, Repr

/-- One emitted validation issue.  Each constructor corresponds to one
emission site of the validation loop (src/index.ts lines 161-174). -/
inductive ValidationIssue where
  | unknownOriginal (original : String)
  | duplicateTarget (target : String)
  | targetExists (target : String)
deriving DecidableEq, Repr

/-- The severity of each emission site: the first two are
`validationErrors.push` (errors), the third is `console.warn` (warning). -/
def ValidationIssue.severity : ValidationIssue → Severity
  | .unknownOriginal _ => Severity.error
  | .duplicateTarget _ => Severity.error
  | .targetExists _ => Severity.warning

/-- The exact text emitted at each site (src/index.ts lines 163, 166, 172). -/
def ValidationIssue.message : ValidationIssue → String
  | .unknownOriginal o => "Original file not found: " ++ o
  | .duplicateTarget t => "Duplicate target filename: " ++ t
  | .targetExists t => "Warning: Target file " ++ t ++ " already exists."

/-- The body of the validation loop for one operation `op`
(src/index.ts lines 161-174):
* error if `!onlyFiles.includes(op.original)`;
* error if `newNames.has(op.new)` where `newNames` holds the `new` values of
  the operations already processed (`prevNews`);
* warning if the target exists on disk (`e op.new`) and
  `!operations.find(o => o.original === op.new)` — the search runs over the
  whole plan, the current operation included. -/
def checkOp (onlyFiles : List String) (operations : List RenameOperation)
    (e : String → Bool) (prevNews : List String) (op : RenameOperation) :
    List ValidationIssue :=
  (if op.original ∈ onlyFiles then [] else [ValidationIssue.unknownOriginal op.original])
    ++ (if op.new ∈ prevNews then [ValidationIssue.duplicateTarget op.new] else [])
    ++ (if e op.new = true ∧ ∀ o ∈ operations, o.original ≠ op.new then
          [ValidationIssue.targetExists op.new]
        else [])

/-- The `for (const op of operations)` loop: `rest` is the unprocessed tail
and `prevNews` the accumulated `newNames` set; `newNames.add(op.new)` runs
unconditionally after the duplicate check. -/
def validateLoop (onlyFiles : List String) (operations : List RenameOperation)
    (e : String → Bool) :
    List RenameOperation → List String → List ValidationIssue
  | [], _ => []
  | op :: rest, prevNews =>
      checkOp onlyFiles operations e prevNews op
        ++ validateLoop onlyFiles operations e rest (prevNews ++ [op.new])

/-- The full validation pass over a plan: iterates the loop body over
`operations` starting from an empty `newNames` set, with the collision
check searching the whole `operations` list. -/
def validate (onlyFiles : List String) (operations : List RenameOperation)
    (e : String → Bool) : List ValidationIssue :=
  validateLoop onlyFiles operations e operations []

/-- The `validationErrors` array: only the `push` sites contribute;
`console.warn` output never enters it (src/index.ts lines 158, 163, 166). -/
def errorsOf (report : List ValidationIssue) : List ValidationIssue :=
  report.filter (fun i => i.severity = Severity.error)

/-- The issues the loop emits while processing the operation at position `j`:
the loop body applied to `operations[j]` with `newNames` holding the `new`
values of operations `0..j-1`. -/
def issuesFor (onlyFiles : List String) (operations : List RenameOperation)
    (e : String → Bool) (j : Nat) : List ValidationIssue :=
  match operations[j]? with
  | some op =>
      checkOp onlyFiles operations e ((operations.take j).map RenameOperation.new) op
  | none => []

/-- The disk, as the characteristic function of the set of names present in
the target directory. -/
def Disk : Type := String → Bool

/-- Per-operation outcome of the executor (spec `ExecutionResult` entries).
The execution loop logs `Renamed:` on success and `Failed to rename` with
the caught error on failure; `skipped` exists in the result vocabulary but
is never produced by the loop. -/
inductive Outcome where
  | applied
  | skipped
  | failed (detail : String)
deriving DecidableEq, Repr

/-- The error description `fs.rename` rejects with when the source is
missing. -/
def renameErrMsg (old new : String) : String :=
  "ENOENT: no such file or directory, rename " ++ old ++ " -> " ++ new

/-- `fs.rename(oldPath, newPath)`: succeeds exactly when the source exists,
removing the old name and (over)writing the new one; rejects with ENOENT
otherwise. -/
def fsRename (old new : String) (d : Disk) : Except String Disk :=
  if d old = true then
    Except.ok (fun f => if f = new then true else if f = old then false else d f)
  else
    Except.error (renameErrMsg old new)

/-- The execution loop (src/index.ts lines 196-205): for each operation in
plan order, try the rename; on success record `applied` and continue with
the updated disk, on failure record `failed` with the caught error and
continue with the disk unchanged.  Parameterised by the rename primitive as
in the spec contract `execute(plan, rename)`. -/
def execute (rename : String → String → Disk → Except String Disk) :
    List RenameOperation → Disk → List Outcome × Disk
  | [], d => ([], d)
  | op :: rest, d =>
      match rename op.original op.new d with
      | Except.ok d2 =>
          let r := execute rename rest d2
          (Outcome.applied :: r.1, r.2)
      | Except.error msg =>
          let r := execute rename rest d
          (Outcome.failed msg :: r.1, r.2)

/-! ## Structural lemmas about the validation loop -/

/-- Unfolding `issuesFor` at an in-range position. -/
lemma issuesFor_eq_checkOp (S : List String) (P : List RenameOperation)
    (e : String → Bool) (j : Nat) (hj : j < P.length) :
    issuesFor S P e j
      = checkOp S P e ((P.take j).map RenameOperation.new) P[j] := by
  simp [issuesFor, List.getElem?_eq_getElem hj]

/-- The loop run from position `k` (with the accumulator holding the `new`
values of operations `0..k-1`) emits, in order, the per-operation issue
lists of positions `k, k+1, ...`. -/
lemma validateLoop_eq_aux (S : List String) (P : List RenameOperation)
    (e : String → Bool) :
    ∀ (rest : List RenameOperation) (k : Nat), P.drop k = rest →
      validateLoop S P e rest ((P.take k).map RenameOperation.new)
        = ((List.range' k rest.length).map (issuesFor S P e)).flatten := by
  intro rest
  induction rest with
  | nil => intro k _; simp [validateLoop]
  | cons op rest ih =>
      intro k hk
      have hk1 : P[k]? = some op := by
        have h0 := List.getElem?_drop P k 0
        rw [hk] at h0
        simpa using h0.symm
      have htake : P.take (k + 1) = P.take k ++ [op] := by
        rw [List.take_succ, hk1]
        rfl
      have hdrop : P.drop (k + 1) = rest := by
        have h1 : P.drop (k + 1) = (P.drop k).drop 1 := by
          rw [List.drop_drop]
        rw [h1, hk]
        rfl
      have hacc : (P.take k).map RenameOperation.new ++ [op.new]
          = (P.take (k + 1)).map RenameOperation.new := by
        rw [htake]
        simp
      show checkOp S P e ((P.take k).map RenameOperation.new) op
            ++ validateLoop S P e rest
                ((P.take k).map RenameOperation.new ++ [op.new])
          = _
      rw [hacc, ih (k + 1) hdrop]
      simp only [List.length_cons]
      rw [List.range'_succ]
      simp [issuesFor, hk1]

/-- The report is exactly the concatenation, in plan order, of the issue
lists of the individual operations. -/
lemma validate_eq_flatten (S : List String) (P : List RenameOperation)
    (e : String → Bool) :
    validate S P e
      = ((List.range P.length).map (issuesFor S P e)).flatten := by
  have h := validateLoop_eq_aux S P e P 0 (by simp)
  simpa [validate, List.range_eq_range'] using h

/-- Issues attributed to an in-range operation occur in the report. -/
lemma mem_validate_of_mem_issuesFor {S : List String} {P : List RenameOperation}
    {e : String → Bool} {j : Nat} {i : ValidationIssue}
    (hj : j < P.length) (hi : i ∈ issuesFor S P e j) :
    i ∈ validate S P e := by
  rw [validate_eq_flatten]
  exact List.mem_flatten.mpr
    ⟨issuesFor S P e j, List.mem_map_of_mem _ (List.mem_range.mpr hj), hi⟩

/-- Membership in the mapped prefix of `new` values, in terms of positions. -/
lemma new_mem_take_iff (P : List RenameOperation) (j : Nat) (x : String) :
    x ∈ (P.take j).map RenameOperation.new
      ↔ ∃ i, ∃ h : i < P.length, i < j ∧ (P[i]).new = x := by
  constructor
  · intro hx
    rcases List.mem_iff_getElem.mp hx with ⟨i, hia, hib⟩
    have hlen : i < (P.take j).length := by simpa using hia
    have hiP : i < P.length := by simp at hlen; omega
    have hij : i < j := by simp at hlen; omega
    refine ⟨i, hiP, hij, ?_⟩
    rw [List.getElem_map] at hib
    rw [← hib, List.getElem_take]
  · rintro ⟨i, hiP, hij, hx⟩
    have hlen : i < ((P.take j).map RenameOperation.new).length := by
      simp
      omega
    refine List.mem_iff_getElem.mpr ⟨i, hlen, ?_⟩
    rw [List.getElem_map, List.getElem_take]
    exact hx

/-! ## Structural lemmas about the execution loop -/

/-- The executor produces exactly one outcome per operation. -/
lemma execute_length (rename : String → String → Disk → Except String Disk) :
    ∀ (plan : List RenameOperation) (d : Disk),
      (execute rename plan d).1.length = plan.length := by
  intro plan
  induction plan with
  | nil => intro d; rfl
  | cons op rest ih =>
      intro d
      cases h : rename op.original op.new d with
      | ok d2 => simp [execute, h, ih]
      | error msg => simp [execute, h, ih]

/-- The executor never emits `skipped`. -/
lemma execute_skipped_not_mem (rename : String → String → Disk → Except String Disk) :
    ∀ (plan : List RenameOperation) (d : Disk),
      Outcome.skipped ∉ (execute rename plan d).1 := by
  intro plan
  induction plan with
  | nil => intro d h; cases h
  | cons op rest ih =>
      intro d
      cases h : rename op.original op.new d with
      | ok d2 => simp [execute, h]; exact ih d2
      | error msg => simp [execute, h]; exact ih d

/-- Executing a concatenation runs the first part, then the second from the
state the first part left behind. -/
lemma execute_append (rename : String → String → Disk → Except String Disk)
    (l1 l2 : List RenameOperation) (d : Disk) :
    execute rename (l1 ++ l2) d
      = ((execute rename l1 d).1
          ++ (execute rename l2 ((execute rename l1 d).2)).1,
         (execute rename l2 ((execute rename l1 d).2)).2) := by
  induction l1 generalizing d with
  | nil => simp [execute]
  | cons op rest ih =>
      cases h : rename op.original op.new d with
      | ok d2 => simp [execute, h, ih]
      | error msg => simp [execute, h, ih]

/-- A name absent from the disk that is no operation's target stays absent. -/
lemma exec_preserve_absent :
    ∀ (plan : List RenameOperation) (d : Disk) (x : String),
      d x = false → (∀ op ∈ plan, op.new ≠ x) →
      (execute fsRename plan d).2 x = false := by
  intro plan
  induction plan with
  | nil => intro d x hx _; exact hx
  | cons op rest ih =>
      intro d x hx hnew
      by_cases hold : d op.original = true
      · have hr : fsRename op.original op.new d
            = Except.ok (fun f => if f = op.new then true
                else if f = op.original then false else d f) := by
          simp [fsRename, hold]
        have hstep : (execute fsRename (op :: rest) d).2
            = (execute fsRename rest (fun f => if f = op.new then true
                else if f = op.original then false else d f)).2 := by
          simp [execute, hr]
        rw [hstep]
        refine ih _ x ?_ (fun o ho => hnew o (List.mem_cons_of_mem _ ho))
        show (if x = op.new then true
            else if x = op.original then false else d x) = false
        have hxnew : x ≠ op.new := (hnew op (List.mem_cons_self op rest)).symm
        rw [if_neg hxnew]
        by_cases hxo : x = op.original
        · rw [if_pos hxo]
        · rw [if_neg hxo]; exact hx
      · have hr : fsRename op.original op.new d
            = Except.error (renameErrMsg op.original op.new) := by
          simp [fsRename, hold]
        have hstep : (execute fsRename (op :: rest) d).2
            = (execute fsRename rest d).2 := by
          simp [execute, hr]
        rw [hstep]
        exact ih d x hx (fun o ho => hnew o (List.mem_cons_of_mem _ ho))

/-- After a fully successful run of a plan none of whose targets coincides
with any of its sources, every source name is gone from the disk. -/
lemma exec_success_originals_absent :
    ∀ (plan : List RenameOperation) (d : Disk),
      (execute fsRename plan d).1 = List.replicate plan.length Outcome.applied →
      (∀ op ∈ plan, ∀ op2 ∈ plan, op.new ≠ op2.original) →
      ∀ op ∈ plan, (execute fsRename plan d).2 op.original = false := by
  intro plan
  induction plan with
  | nil => intro d _ _ op hop; cases hop
  | cons op rest ih =>
      intro d hsucc hdisj op1 hop1
      cases hr : fsRename op.original op.new d with
      | error msg =>
          exfalso
          have hx : (execute fsRename (op :: rest) d).1
              = Outcome.failed msg :: (execute fsRename rest d).1 := by
            simp [execute, hr]
          rw [hx] at hsucc
          simp [List.replicate] at hsucc
      | ok d2 =>
          have hexec : execute fsRename (op :: rest) d
              = (Outcome.applied :: (execute fsRename rest d2).1,
                 (execute fsRename rest d2).2) := by
            simp [execute, hr]
          have htail : (execute fsRename rest d2).1
              = List.replicate rest.length Outcome.applied := by
            rw [hexec] at hsucc
            simpa [List.replicate] using hsucc
          by_cases hold : d op.original = true
          · have hd2F : d2 = fun f => if f = op.new then true
                else if f = op.original then false else d f := by
              unfold fsRename at hr
              rw [if_pos hold] at hr
              exact (Except.ok.inj hr).symm
            have hne : op.new ≠ op.original :=
              hdisj op (List.mem_cons_self op rest) op (List.mem_cons_self op rest)
            have hd2 : d2 op.original = false := by
              rw [hd2F]
              show (if op.original = op.new then true
                  else if op.original = op.original then false else d op.original) = false
              rw [if_neg hne.symm, if_pos rfl]
            rw [hexec]
            rcases List.mem_cons.mp hop1 with h1 | h1
            · subst h1
              exact exec_preserve_absent rest d2 op1.original hd2
                (fun o ho => hdisj o (List.mem_cons_of_mem _ ho) op1
                  (List.mem_cons_self op1 rest))
            · exact ih d2 htail
                (fun o ho o2 ho2 => hdisj o (List.mem_cons_of_mem _ ho) o2
                  (List.mem_cons_of_mem _ ho2)) op1 h1
          · simp [fsRename, hold] at hr

/-- A plan all of whose source names are absent fails every operation and
leaves the disk untouched. -/
lemma exec_all_absent_fail :
    ∀ (plan : List RenameOperation) (d : Disk),
      (∀ op ∈ plan, d op.original = false) →
      execute fsRename plan d
        = (plan.map (fun op => Outcome.failed (renameErrMsg op.original op.new)), d) := by
  intro plan
  induction plan with
  | nil => intro d _; rfl
  | cons op rest ih =>
      intro d habs
      have hold : d op.original = false := habs op (List.mem_cons_self op rest)
      have hr : fsRename op.original op.new d
          = Except.error (renameErrMsg op.original op.new) := by
        unfold fsRename
        rw [if_neg (by rw [hold]; exact Bool.false_ne_true)]
      have hrest := ih d (fun o ho => habs o (List.mem_cons_of_mem _ ho))
      simp [execute, hr, hrest]

/-- The loop body reads the probe only at the operation's target name. -/
lemma checkOp_congr (S : List String) (P : List RenameOperation)
    (e1 e2 : String → Bool) (acc : List String) (op : RenameOperation)
    (h : e1 op.new = e2 op.new) :
    checkOp S P e1 acc op = checkOp S P e2 acc op := by
  unfold checkOp
  rw [h]

/-- The whole loop reads the probe only at the target names of the
operations it processes. -/
lemma validateLoop_congr (S : List String) (P : List RenameOperation)
    (e1 e2 : String → Bool) :
    ∀ (rest : List RenameOperation) (acc : List String),
      (∀ op ∈ rest, e1 op.new = e2 op.new) →
      validateLoop S P e1 rest acc = validateLoop S P e2 rest acc := by
  intro rest
  induction rest with
  | nil => intro acc _; rfl
  | cons op rest ih =>
      intro acc h
      show checkOp S P e1 acc op ++ validateLoop S P e1 rest (acc ++ [op.new])
          = checkOp S P e2 acc op ++ validateLoop S P e2 rest (acc ++ [op.new])
      rw [checkOp_congr S P e1 e2 acc op (h op (List.mem_cons_self op rest)),
        ih (acc ++ [op.new]) (fun o ho => h o (List.mem_cons_of_mem _ ho))]

/-! ## Claim theorems -/

/-- C1: every operation whose `original` is not a member of the snapshot
yields an unknown-original validation error, attributed to that operation
and present in the report; no such operation is silently accepted.  In
particular, when every operation's `original` is absent, every operation
yields such an error. -/
theorem unknown_original_flagged (S : List String) (P : List RenameOperation)
    (e : String → Bool) (j : Nat) (hj : j < P.length)
    (h : (P[j]).original ∉ S) :
    ValidationIssue.unknownOriginal (P[j]).original ∈ issuesFor S P e j ∧
    ValidationIssue.unknownOriginal (P[j]).original ∈ validate S P e := by
  have h1 : ValidationIssue.unknownOriginal (P[j]).original ∈ issuesFor S P e j := by
    rw [issuesFor_eq_checkOp S P e j hj]
    unfold checkOp
    refine List.mem_append.mpr (Or.inl (List.mem_append.mpr (Or.inl ?_)))
    rw [if_neg h]
    exact List.mem_cons_self _ _
  exact ⟨h1, mem_validate_of_mem_issuesFor hj h1⟩

/-- Witness for C1 at a concrete input: a plan whose only operation names a
file missing from the snapshot is flagged. -/
theorem unknown_original_flagged_witness :
    ValidationIssue.unknownOriginal "b.txt" ∈
      validate ["a.txt"] [⟨"b.txt", "c.txt", none⟩] (fun _ => false) :=
  (unknown_original_flagged ["a.txt"] [⟨"b.txt", "c.txt", none⟩]
    (fun _ => false) 0 (by decide) (by decide)).2

/-- C2 counterexample: on the claim's own example plan
`[a.txt → x.txt, b.txt → x.txt]` the code produces exactly one
duplicate-target error (for the second operation), not two: the check
`newNames.has(op.new)` runs before `newNames.add(op.new)`, so the first
occurrence is never flagged. -/
theorem duplicate_first_not_flagged_cex :
    validate ["a.txt", "b.txt"]
      [⟨"a.txt", "x.txt", none⟩, ⟨"b.txt", "x.txt", none⟩] (fun _ => false)
      = [ValidationIssue.duplicateTarget "x.txt"] := by decide

/-- C2 amended: an operation receives a duplicate-target error exactly when
some earlier operation in the plan has the same `new` value; the first
occurrence of a shared target is not flagged. -/
theorem duplicate_later_occurrences_flagged (S : List String)
    (P : List RenameOperation) (e : String → Bool) (j : Nat)
    (hj : j < P.length) :
    ValidationIssue.duplicateTarget (P[j]).new ∈ issuesFor S P e j
      ↔ ∃ i, ∃ h : i < P.length, i < j ∧ (P[i]).new = (P[j]).new := by
  rw [issuesFor_eq_checkOp S P e j hj, ← new_mem_take_iff]
  unfold checkOp
  constructor
  · intro hmem
    by_cases hD : (P[j]).new ∈ (P.take j).map RenameOperation.new
    · exact hD
    · exfalso
      rw [if_neg hD] at hmem
      split_ifs at hmem <;> simp at hmem
  · intro hD
    rw [if_pos hD]
    refine List.mem_append.mpr (Or.inl (List.mem_append.mpr (Or.inr ?_)))
    exact List.mem_cons_self _ _

/-- Witness for the amended C2: in the example plan the second operation is
flagged, via an earlier operation sharing its target. -/
theorem duplicate_later_occurrences_flagged_witness :
    ValidationIssue.duplicateTarget "x.txt" ∈
      issuesFor ["a.txt", "b.txt"]
        [⟨"a.txt", "x.txt", none⟩, ⟨"b.txt", "x.txt", none⟩] (fun _ => false) 1 :=
  (duplicate_later_occurrences_flagged ["a.txt", "b.txt"]
      [⟨"a.txt", "x.txt", none⟩, ⟨"b.txt", "x.txt", none⟩] (fun _ => false) 1
      (by decide)).mpr
    ⟨0, by decide, by decide, by decide⟩

/-- C3 counterexample: an operation whose `new` is the empty string (or
contains a path separator) produces no validation issue at all — the loop
has no filename-validity check. -/
theorem invalid_filename_not_flagged_cex :
    validate ["a.txt"] [⟨"a.txt", "", none⟩] (fun _ => false) = [] ∧
    validate ["a.txt"] [⟨"a.txt", "x/y.txt", none⟩] (fun _ => false) = [] := by
  exact ⟨by decide, by decide⟩

/-- C3 amended: the validator has no filename-validity check: an operation
whose `new` is empty or contains a path separator yields no issue whenever
its other checks pass (original known, target not an earlier duplicate,
target not on disk). -/
theorem invalid_target_not_checked (S : List String) (P : List RenameOperation)
    (e : String → Bool) (j : Nat) (hj : j < P.length)
    (_hinv : (P[j]).new = "" ∨ (Char.ofNat 47) ∈ (P[j]).new.toList)
    (hok : (P[j]).original ∈ S)
    (hnodup : (P[j]).new ∉ (P.take j).map RenameOperation.new)
    (hex : e (P[j]).new = false) :
    issuesFor S P e j = [] := by
  rw [issuesFor_eq_checkOp S P e j hj]
  unfold checkOp
  rw [if_pos hok, if_neg hnodup, if_neg (fun hc => by
    rw [hex] at hc
    exact Bool.false_ne_true hc.1)]
  rfl

/-- Witness for the amended C3: an empty target passes validation silently. -/
theorem invalid_target_not_checked_witness :
    issuesFor ["a.txt"] [⟨"a.txt", "", none⟩] (fun _ => false) 0 = [] :=
  invalid_target_not_checked ["a.txt"] [⟨"a.txt", "", none⟩] (fun _ => false) 0
    (by decide) (Or.inl (by decide)) (by decide) (by decide) (by decide)

/-- A report all of whose issues are warnings contributes nothing to
`validationErrors`. -/
lemma errorsOf_eq_nil (report : List ValidationIssue)
    (h : ∀ i ∈ report, i.severity = Severity.warning) :
    errorsOf report = [] := by
  induction report with
  | nil => rfl
  | cons i rest ih =>
      have hi := h i (List.mem_cons_self _ _)
      have hrest := ih (fun x hx => h x (List.mem_cons_of_mem _ hx))
      unfold errorsOf at hrest ⊢
      rw [List.filter_cons]
      have hb : decide (i.severity = Severity.error) = false := by
        rw [hi]
        rfl
      rw [hb]
      simpa using hrest

/-- C4 counterexample: the claim's condition reads "no *other* operation has
`op.new` as its `original`".  For an identity operation (rename of `a.txt`
to itself, with `a.txt` in the snapshot and on disk) that condition holds,
yet the code emits no warning: `operations.find(o => o.original === op.new)`
also matches the operation itself, so the check is suppressed. -/
theorem target_exists_other_reading_cex :
    validate ["a.txt"] [⟨"a.txt", "a.txt", none⟩] (fun n => n == "a.txt") = [] := by
  decide

/-- C4 amended: a warning is produced when the target exists on disk and no
operation in the plan — the operation itself included — has that name as its
`original`; the issue has warning severity, warnings never enter
`validationErrors`, and a plan whose operations all pass the two error
checks (originals known, pairwise-distinct targets) yields zero validation
errors even when target-exists warnings fire. -/
theorem target_exists_warning_behavior (S : List String)
    (P : List RenameOperation) (e : String → Bool) :
    (∀ j (hj : j < P.length), e (P[j]).new = true →
        (∀ o ∈ P, o.original ≠ (P[j]).new) →
        ValidationIssue.targetExists (P[j]).new ∈ issuesFor S P e j ∧
        (ValidationIssue.targetExists (P[j]).new).severity = Severity.warning) ∧
    (∀ t, ValidationIssue.targetExists t ∉ errorsOf (validate S P e)) ∧
    ((∀ op ∈ P, op.original ∈ S) → (P.map RenameOperation.new).Nodup →
        errorsOf (validate S P e) = []) := by
  refine ⟨?_, ?_, ?_⟩
  · intro j hj he hno
    refine ⟨?_, rfl⟩
    rw [issuesFor_eq_checkOp S P e j hj]
    unfold checkOp
    refine List.mem_append.mpr (Or.inr ?_)
    rw [if_pos ⟨he, hno⟩]
    exact List.mem_cons_self _ _
  · intro t hmem
    have h2 := List.mem_filter.mp hmem
    simp [ValidationIssue.severity] at h2
  · intro hS hnd
    apply errorsOf_eq_nil
    intro i hi
    rw [validate_eq_flatten] at hi
    rcases List.mem_flatten.mp hi with ⟨l, hl, hil⟩
    rcases List.mem_map.mp hl with ⟨j, hjr, rfl⟩
    have hj : j < P.length := List.mem_range.mp hjr
    rw [issuesFor_eq_checkOp S P e j hj] at hil
    unfold checkOp at hil
    rw [if_pos (hS _ (List.getElem_mem hj))] at hil
    have hD : (P[j]).new ∉ (P.take j).map RenameOperation.new := by
      intro hmem2
      rcases (new_mem_take_iff P j _).mp hmem2 with ⟨i2, hi2, hij, hx⟩
      have hi2m : i2 < (P.map RenameOperation.new).length := by simpa using hi2
      have hjm : j < (P.map RenameOperation.new).length := by simpa using hj
      have hmap : (P.map RenameOperation.new)[i2] = (P.map RenameOperation.new)[j] := by
        rw [List.getElem_map, List.getElem_map]
        exact hx
      have : i2 = j := (hnd.getElem_inj_iff).mp hmap
      omega
    rw [if_neg hD] at hil
    rw [List.nil_append, List.nil_append] at hil
    by_cases hW : e (P[j]).new = true ∧ ∀ o ∈ P, o.original ≠ (P[j]).new
    · rw [if_pos hW] at hil
      have hte : i = ValidationIssue.targetExists (P[j]).new := by
        simpa using hil
      rw [hte]
      rfl
    · rw [if_neg hW] at hil
      cases hil

/-- Witness for the amended C4: `a.txt → out.txt` with `out.txt` already on
disk yields the warning and zero validation errors. -/
theorem target_exists_warning_behavior_witness :
    ValidationIssue.targetExists "out.txt" ∈
      issuesFor ["a.txt"] [⟨"a.txt", "out.txt", none⟩] (fun n => n == "out.txt") 0 ∧
    errorsOf (validate ["a.txt"] [⟨"a.txt", "out.txt", none⟩]
      (fun n => n == "out.txt")) = [] :=
  ⟨((target_exists_warning_behavior ["a.txt"] [⟨"a.txt", "out.txt", none⟩]
      (fun n => n == "out.txt")).1 0 (by decide) (by decide) (by decide)).1,
   (target_exists_warning_behavior ["a.txt"] [⟨"a.txt", "out.txt", none⟩]
      (fun n => n == "out.txt")).2.2 (by decide) (by decide)⟩

/-- C5: when the rename call of the operation at position `k` fails, the
effects of operations `1..k-1` persist (operations after `k` run from the
state the prefix produced, which the failed operation leaves untouched),
every later operation is still attempted in plan order, the failure is
recorded as `failed` with the underlying error detail, the result has one
outcome per operation in plan order, and no submitted operation is ever
converted to `skipped`. -/
theorem executor_partial_failure
    (rename : String → String → Disk → Except String Disk)
    (p1 p2 : List RenameOperation) (op : RenameOperation) (d : Disk)
    (msg : String)
    (hfail : rename op.original op.new (execute rename p1 d).2
      = Except.error msg) :
    execute rename (p1 ++ op :: p2) d
      = ((execute rename p1 d).1
          ++ Outcome.failed msg :: (execute rename p2 ((execute rename p1 d).2)).1,
         (execute rename p2 ((execute rename p1 d).2)).2) ∧
    (execute rename (p1 ++ op :: p2) d).1.length = p1.length + 1 + p2.length ∧
    Outcome.skipped ∉ (execute rename (p1 ++ op :: p2) d).1 := by
  refine ⟨?_, ?_, execute_skipped_not_mem rename _ d⟩
  · rw [execute_append]
    have hstep : execute rename (op :: p2) ((execute rename p1 d).2)
        = (Outcome.failed msg :: (execute rename p2 ((execute rename p1 d).2)).1,
           (execute rename p2 ((execute rename p1 d).2)).2) := by
      simp [execute, hfail]
    rw [hstep]
  · rw [execute_length]
    simp
    omega

/-- Witness for C5: a three-operation plan whose middle operation names a
missing source applies the first and last operations and records the middle
one as failed. -/
theorem executor_partial_failure_witness :
    execute fsRename
        ([⟨"a.txt", "b.txt", none⟩] ++ ⟨"zzz.txt", "w.txt", none⟩ :: [⟨"c.txt", "d.txt", none⟩])
        (fun n => n == "a.txt" || n == "c.txt")
      = ((execute fsRename [⟨"a.txt", "b.txt", none⟩]
            (fun n => n == "a.txt" || n == "c.txt")).1
          ++ Outcome.failed (renameErrMsg "zzz.txt" "w.txt")
            :: (execute fsRename [⟨"c.txt", "d.txt", none⟩]
                ((execute fsRename [⟨"a.txt", "b.txt", none⟩]
                  (fun n => n == "a.txt" || n == "c.txt")).2)).1,
         (execute fsRename [⟨"c.txt", "d.txt", none⟩]
            ((execute fsRename [⟨"a.txt", "b.txt", none⟩]
              (fun n => n == "a.txt" || n == "c.txt")).2)).2) ∧
    (execute fsRename
        ([⟨"a.txt", "b.txt", none⟩] ++ ⟨"zzz.txt", "w.txt", none⟩ :: [⟨"c.txt", "d.txt", none⟩])
        (fun n => n == "a.txt" || n == "c.txt")).1.length = 1 + 1 + 1 ∧
    Outcome.skipped ∉ (execute fsRename
        ([⟨"a.txt", "b.txt", none⟩] ++ ⟨"zzz.txt", "w.txt", none⟩ :: [⟨"c.txt", "d.txt", none⟩])
        (fun n => n == "a.txt" || n == "c.txt")).1 :=
  executor_partial_failure fsRename
    [⟨"a.txt", "b.txt", none⟩] [⟨"c.txt", "d.txt", none⟩]
    ⟨"zzz.txt", "w.txt", none⟩ (fun n => n == "a.txt" || n == "c.txt")
    (renameErrMsg "zzz.txt" "w.txt") (by rfl)

/-- C6: immediately after a fully successful run of a plan none of whose
target names coincides with any source name, re-running the executor on the
same plan fails every operation with the missing-source error and never
reports `applied`. -/
theorem rerun_after_success_fails (plan : List RenameOperation) (d : Disk)
    (hsucc : (execute fsRename plan d).1
      = List.replicate plan.length Outcome.applied)
    (hdisj : ∀ op ∈ plan, ∀ op2 ∈ plan, op.new ≠ op2.original) :
    (execute fsRename plan ((execute fsRename plan d).2)).1
        = plan.map (fun op => Outcome.failed (renameErrMsg op.original op.new)) ∧
    Outcome.applied ∉ (execute fsRename plan ((execute fsRename plan d).2)).1 := by
  have habs := exec_success_originals_absent plan d hsucc hdisj
  have h := exec_all_absent_fail plan ((execute fsRename plan d).2) habs
  rw [h]
  refine ⟨rfl, ?_⟩
  intro hmem
  rcases List.mem_map.mp hmem with ⟨o, _, ho⟩
  cases ho

/-- Witness for C6: renaming `a.txt` to `b.txt` succeeds once; re-running
the same single-operation plan fails it. -/
theorem rerun_after_success_fails_witness :
    (execute fsRename [⟨"a.txt", "b.txt", none⟩] (fun n => n == "a.txt")).1
        = List.replicate 1 Outcome.applied ∧
    (execute fsRename [⟨"a.txt", "b.txt", none⟩]
        ((execute fsRename [⟨"a.txt", "b.txt", none⟩] (fun n => n == "a.txt")).2)).1
        = [Outcome.failed (renameErrMsg "a.txt" "b.txt")] :=
  ⟨by decide,
   (rerun_after_success_fails [⟨"a.txt", "b.txt", none⟩] (fun n => n == "a.txt")
      (by decide) (by decide)).1⟩

/-- C7: the validator does not short-circuit: its report is exactly the
concatenation, over the operations in plan order, of each operation's issue
list, and each per-operation list presents its checks in the fixed source
order (unknown original, then duplicate target, then target collision); the
output is therefore deterministic in the plan order regardless of the
internal set used for duplicate tracking. -/
theorem validator_one_pass_ordered (S : List String)
    (P : List RenameOperation) (e : String → Bool) :
    validate S P e = ((List.range P.length).map (issuesFor S P e)).flatten :=
  validate_eq_flatten S P e

/-- C8: validation is a pure function of the snapshot, the plan and the
probe: it reads the probe only at the target names of the plan, so any two
probes agreeing there (in particular, two identical calls) produce
identical, identically-ordered reports; the embedding returns the report
and nothing else, reflecting the absence of filesystem side effects. -/
theorem validate_deterministic (S : List String) (P : List RenameOperation)
    (e1 e2 : String → Bool)
    (h : ∀ op ∈ P, e1 op.new = e2 op.new) :
    validate S P e1 = validate S P e2 := by
  unfold validate
  exact validateLoop_congr S P e1 e2 P [] h

/-- Witness for C8: two probes that agree on the plan's only target name
(but differ elsewhere) yield the same report. -/
theorem validate_deterministic_witness :
    (∀ op ∈ [(⟨"a.txt", "b.txt", none⟩ : RenameOperation)],
        (fun n => n == "b.txt") op.new
          = (fun n => n == "b.txt" || n == "zzz") op.new) ∧
    validate ["a.txt"] [⟨"a.txt", "b.txt", none⟩] (fun n => n == "b.txt")
      = validate ["a.txt"] [⟨"a.txt", "b.txt", none⟩]
          (fun n => n == "b.txt" || n == "zzz") :=
  ⟨by decide,
   validate_deterministic ["a.txt"] [⟨"a.txt", "b.txt", none⟩]
     (fun n => n == "b.txt") (fun n => n == "b.txt" || n == "zzz") (by decide)⟩

/-- C9: an identity operation — `new` equal to its own `original`, that name
in the snapshot and on disk, and no other operation sharing the target —
produces no validation error and no target-exists warning: the original is
known, no earlier operation registered the same target, and the
existing-target check is suppressed because the operation itself has the
target as its `original`. -/
theorem identity_operation_clean (S : List String) (P : List RenameOperation)
    (e : String → Bool) (j : Nat) (hj : j < P.length)
    (hid : (P[j]).new = (P[j]).original)
    (hsnap : (P[j]).original ∈ S)
    (_hdisk : e (P[j]).new = true)
    (hothers : ∀ i, (hi : i < P.length) → i ≠ j → (P[i]).new ≠ (P[j]).new) :
    issuesFor S P e j = [] := by
  rw [issuesFor_eq_checkOp S P e j hj]
  unfold checkOp
  rw [if_pos hsnap]
  have hnodup : (P[j]).new ∉ (P.take j).map RenameOperation.new := by
    intro hmem
    rcases (new_mem_take_iff P j ((P[j]).new)).mp hmem with ⟨i, hi, hij, hx⟩
    exact hothers i hi (by omega) hx
  rw [if_neg hnodup]
  have hsupp : ¬(e (P[j]).new = true ∧ ∀ o ∈ P, o.original ≠ (P[j]).new) := by
    rintro ⟨-, hall⟩
    exact hall (P[j]) (List.getElem_mem hj) hid.symm
  rw [if_neg hsupp]
  rfl

/-- Witness for C9: the plan `[a.txt → a.txt]` over snapshot `[a.txt]`, with
`a.txt` on disk, produces no issue at all. -/
theorem identity_operation_clean_witness :
    issuesFor ["a.txt"] [⟨"a.txt", "a.txt", none⟩] (fun n => n == "a.txt") 0 = [] :=
  identity_operation_clean ["a.txt"] [⟨"a.txt", "a.txt", none⟩]
    (fun n => n == "a.txt") 0 (by decide) (by decide) (by decide) (by decide)
    (by intro i hi hne; exfalso; simp at hi; omega)

/-- C10: `newNames.add(op.new)` runs for every operation, whether or not the
operation passed its own checks, so a later operation sharing the target of
an earlier operation that failed the unknown-original check is still
flagged as a duplicate target, both in its own issue list and in the
report. -/
theorem duplicate_registered_even_if_invalid (S : List String)
    (P : List RenameOperation) (e : String → Bool) (i j : Nat)
    (hiP : i < P.length) (hj : j < P.length) (hij : i < j)
    (_hbad : (P[i]).original ∉ S)
    (hdup : (P[i]).new = (P[j]).new) :
    ValidationIssue.duplicateTarget (P[j]).new ∈ issuesFor S P e j ∧
    ValidationIssue.duplicateTarget (P[j]).new ∈ validate S P e := by
  have hmem : (P[j]).new ∈ (P.take j).map RenameOperation.new :=
    (new_mem_take_iff P j ((P[j]).new)).mpr ⟨i, hiP, hij, hdup⟩
  have h1 : ValidationIssue.duplicateTarget (P[j]).new ∈ issuesFor S P e j := by
    rw [issuesFor_eq_checkOp S P e j hj]
    unfold checkOp
    refine List.mem_append.mpr (Or.inl (List.mem_append.mpr (Or.inr ?_)))
    rw [if_pos hmem]
    exact List.mem_cons_self _ _
  exact ⟨h1, mem_validate_of_mem_issuesFor hj h1⟩

/-- Witness for C10: the first operation's original `a.txt` is unknown to
the snapshot `[b.txt]`, yet the second operation sharing target `x.txt` is
still flagged as a duplicate. -/
theorem duplicate_registered_even_if_invalid_witness :
    ValidationIssue.duplicateTarget "x.txt" ∈
      issuesFor ["b.txt"] [⟨"a.txt", "x.txt", none⟩, ⟨"b.txt", "x.txt", none⟩]
        (fun _ => false) 1 ∧
    ValidationIssue.duplicateTarget "x.txt" ∈
      validate ["b.txt"] [⟨"a.txt", "x.txt", none⟩, ⟨"b.txt", "x.txt", none⟩]
        (fun _ => false) :=
  duplicate_registered_even_if_invalid ["b.txt"]
    [⟨"a.txt", "x.txt", none⟩, ⟨"b.txt", "x.txt", none⟩] (fun _ => false) 0 1
    (by decide) (by decide) (by decide) (by decide) (by decide)
